import Mathlib

/-!
Shallow embedding of the classification-and-scoring core of the discord_bot
repository, and theorems settling the specification claims about it.

Sources embedded:
- `src/radar_chart_utils.py`: `get_scores`, `add_scores`, `current_scale_max`,
  and the normalization part of `make_radar`.
- `src/main.py`: `extract_entities` (the two regexes and `findall`),
  `naive_label`.
- `src/profile_image_utils.py`: `select_odd_even_odd`.

Machine integers of the source are Python arbitrary-precision `int`,
embedded as `Int` (no overflow). Python `n % 2` for modulus `2` agrees with
Lean `Int.emod` on all integers (both return `0` or `1`). Strings are
embedded as `String` / `List Char`; Python `re` regex scanning is embedded
as explicit executable matchers for the two concrete patterns the source
uses, with `findall` as a left-to-right non-overlapping scan.
-/

namespace DiscordBot

/-- The five score axes, `AXES = ["topic","question","reply","emotion","constructive"]`
in `radar_chart_utils.py`. -/
inductive AxisName
  | topic
  | question
  | reply
  | emotion
  | constructive
deriving DecidableEq

/-- The fixed axis order `AXES` of `radar_chart_utils.py`. -/
def AXES : List AxisName :=
  [AxisName.topic, AxisName.question, AxisName.reply, AxisName.emotion, AxisName.constructive]

/-- One row of the `scores` table: the five integer axis columns
(`user_id` is the store key, `updated_at` carries no score information). -/
structure UserScore where
  topic : Int
  question : Int
  reply : Int
  emotion : Int
  constructive : Int
deriving DecidableEq

/-- Look up one axis value of a score record, as `scores[k]` does on the
dict that `get_scores` returns. -/
def UserScore.axis (s : UserScore) : AxisName → Int
  | AxisName.topic => s.topic
  | AxisName.question => s.question
  | AxisName.reply => s.reply
  | AxisName.emotion => s.emotion
  | AxisName.constructive => s.constructive

/-- The all-zero record `{k: 0 for k in AXES}` returned for a missing user. -/
def zeroScore : UserScore := ⟨0, 0, 0, 0, 0⟩

/-- The persistent `scores` table, keyed by `user_id`: `none` means no row
for that user. -/
def Store : Type := Int → Option UserScore

/-- A delta dict passed to `add_scores`: `none` for an axis key absent from
the dict. -/
def Delta : Type := AxisName → Option Int

/-- Python `delta.get(k, 0)`: the delta for an axis, defaulting to `0` when
the key is absent. -/
def Delta.get (d : Delta) (a : AxisName) : Int := (d a).getD 0

/-- Function `get_scores(uid)` of `radar_chart_utils.py`: `SELECT` the row; if there
is none, return the all-zero dict. The `SELECT` does not change the table,
so the store result component is the input store unchanged. -/
def get_scores (st : Store) (uid : Int) : UserScore × Store :=
  (match st uid with
   | none => zeroScore
   | some r => r, st)

/-- The dict comprehension of `add_scores`:
`new_vals = {k: max(0, cur_vals.get(k, 0) + int(delta.get(k, 0))) for k in AXES}`. -/
def newVals (cur : UserScore) (d : Delta) : UserScore :=
  { topic := max 0 (cur.topic + d.get AxisName.topic)
    question := max 0 (cur.question + d.get AxisName.question)
    reply := max 0 (cur.reply + d.get AxisName.reply)
    emotion := max 0 (cur.emotion + d.get AxisName.emotion)
    constructive := max 0 (cur.constructive + d.get AxisName.constructive) }

/-- Function `add_scores(uid, delta)` of `radar_chart_utils.py`: read the current
row via `get_scores`, compute the per-axis floored sums, upsert the row for
`uid`, and return the new values. -/
def add_scores (st : Store) (uid : Int) (d : Delta) : UserScore × Store :=
  let cur := (get_scores st uid).1
  let nv := newVals cur d
  (nv, fun u => if u = uid then some nv else st u)

/-- Apply a list of deltas to one user, one `add_scores` call at a time. -/
def add_scores_list (st : Store) (uid : Int) (ds : List Delta) : Store :=
  ds.foldl (fun s d => (add_scores s uid d).2) st

/-- Constant `THRESHOLDS = [10, 20, 40, 80, 160]` of `radar_chart_utils.py`. -/
def THRESHOLDS : List Int := [10, 20, 40, 80, 160]

/-- The `for th in THRESHOLDS: if max_value <= th: return th` loop of
`current_scale_max`: the first ladder element `≥ max_value`, if any. -/
def firstRung : List Int → Int → Option Int
  | [], _ => none
  | th :: rest, m => if m ≤ th then some th else firstRung rest m

/-- Function `current_scale_max(max_value)` of `radar_chart_utils.py`: the first
ladder rung `≥ max_value`, and `THRESHOLDS[-1]` when the loop falls
through. -/
def current_scale_max (max_value : Int) : Int :=
  (firstRung THRESHOLDS max_value).getD (THRESHOLDS.getLastD 0)

/-- Python `max` over a nonempty list (folding `max` from the head). -/
def listMax (l : List Int) : Int := l.foldl max (l.headD 0)

/-- The `values = [scores[k] for k in AXES]` list of `make_radar`. -/
def radarValues (scores : UserScore) : List Int := AXES.map scores.axis

/-- The `max_v = max(values) if any(values) else 1` line of `make_radar`. -/
def radarMaxV (scores : UserScore) : Int :=
  if (radarValues scores).any (fun v => v ≠ 0) then listMax (radarValues scores) else 1

/-- The `scale = current_scale_max(max_v)` line of `make_radar`. -/
def radarScale (scores : UserScore) : Int := current_scale_max (radarMaxV scores)

/-- The `values_norm = [v / scale for v in values]` line of `make_radar`
(Python `/` is exact real division on these integers, embedded as `ℚ`);
this is the normalized pentagon before the closing `values_norm[:1]`
repetition. -/
def make_radar_norm (scores : UserScore) : List ℚ :=
  (radarValues scores).map (fun (v : Int) => (v : ℚ) / ((radarScale scores : Int) : ℚ))

/-- Whitespace as Python's regex `\s` / `str.strip` treat it on the
characters this repository can meet: ASCII whitespace and the ideographic
space. -/
def isSpaceChar (c : Char) : Bool :=
  c == ' ' || c == '\t' || c == '\n' || c == '\r' || c == '\x0b' || c == '\x0c' || c == '　'

/-- List-of-characters version of `pat` being a prefix of `text`. -/
def startsWith : List Char → List Char → Bool
  | [], _ => true
  | _ :: _, [] => false
  | p :: ps, c :: cs => p == c && startsWith ps cs

/-- Python `pat in text`: `pat` occurs as a contiguous substring. -/
def containsSub (pat : List Char) : List Char → Bool
  | [] => startsWith pat []
  | c :: cs => startsWith pat (c :: cs) || containsSub pat cs

/-- Python `text.endswith(pat)`. -/
def endsWith (pat text : List Char) : Bool := startsWith pat.reverse text.reverse

/-- Python `text.strip()`: drop leading and trailing whitespace. -/
def pyStrip (cs : List Char) : List Char :=
  ((cs.dropWhile isSpaceChar).reverse.dropWhile isSpaceChar).reverse

/-- A sign character of the `[-+]?` part of `number_re`. -/
def isSignChar (c : Char) : Bool := c == '+' || c == '-'

/-- A decimal-separator character of the `[.,]?` part of `number_re`. -/
def isSepChar (c : Char) : Bool := c == '.' || c == ','

/-- The `\d+[.,]?\d*` tail of `number_re = [-+]?\d+[.,]?\d*`, matched
greedily at the start of `cs`: one or more digits, then, when a separator
is present, the separator and the following (possibly empty) digit run. -/
def matchDigitsTail (cs : List Char) : Option (List Char) :=
  if (cs.takeWhile Char.isDigit).length = 0 then none
  else
    match cs.drop (cs.takeWhile Char.isDigit).length with
    | c :: rest2 =>
        if isSepChar c then
          some (cs.takeWhile Char.isDigit ++ c :: rest2.takeWhile Char.isDigit)
        else some (cs.takeWhile Char.isDigit)
    | [] => some (cs.takeWhile Char.isDigit)

/-- Pattern `number_re = re.compile(r'[-+]?\d+[.,]?\d*')` matched at the start of
`cs`: an optional sign is kept only when digits follow it (otherwise the
regex backtracks to the signless alternative, which then fails on the sign
character). Returns the matched prefix. -/
def matchNumberAt (cs : List Char) : Option (List Char) :=
  match cs with
  | [] => none
  | c :: rest =>
      if isSignChar c then (matchDigitsTail rest).map (fun m => c :: m)
      else matchDigitsTail cs

/-- Pattern `url_re = re.compile(r'https?://\S+')` matched at the start of `cs`:
the literal scheme (with the `s?` resolved by which literal prefix is
present) followed by a maximal nonempty run of non-whitespace. Returns the
matched prefix. -/
def matchUrlAt (cs : List Char) : Option (List Char) :=
  if startsWith ("https://".toList) cs then
    if ((cs.drop 8).takeWhile (fun c => !isSpaceChar c)).length = 0 then none
    else some ("https://".toList ++ (cs.drop 8).takeWhile (fun c => !isSpaceChar c))
  else if startsWith ("http://".toList) cs then
    if ((cs.drop 7).takeWhile (fun c => !isSpaceChar c)).length = 0 then none
    else some ("http://".toList ++ (cs.drop 7).takeWhile (fun c => !isSpaceChar c))
  else none

/-- The scan of `re.findall`: try the matcher at each position left to
right; on a match, emit it and resume right after it, otherwise advance one
character. Both regexes only produce nonempty matches, so each step
consumes at least one character and `cs.length` steps of fuel always
suffice. -/
def findallGo (matchAt : List Char → Option (List Char)) : Nat → List Char → List (List Char)
  | 0, _ => []
  | _, [] => []
  | fuel + 1, c :: cs =>
      match matchAt (c :: cs) with
      | some m => m :: findallGo matchAt fuel ((c :: cs).drop m.length)
      | none => findallGo matchAt fuel cs

/-- Python `re.findall` of a matcher over a character list. -/
def findall (matchAt : List Char → Option (List Char)) (cs : List Char) : List (List Char) :=
  findallGo matchAt cs.length cs

/-- The result record of `extract_entities`: `{"urls": ..., "numbers": ...}`. -/
structure Entities where
  urls : List String
  numbers : List String
deriving DecidableEq

/-- Function `extract_entities(text)` of `main.py`: `url_re.findall` and
`number_re.findall` over the text (`text or ''` only converts `None` to the
empty string, which `String` has no analogue of). -/
def extract_entities (text : String) : Entities :=
  { urls := (findall matchUrlAt text.toList).map (fun l => String.mk l)
    numbers := (findall matchNumberAt text.toList).map (fun l => String.mk l) }

/-- Search `url_re.search(t)` succeeding: the URL pattern matches at some
position. -/
def url_search : List Char → Bool
  | [] => false
  | c :: cs => (matchUrlAt (c :: cs)).isSome || url_search cs

/-- Search `number_re.search(t)` succeeding: since the pattern is
`[-+]?\d+[.,]?\d*`, it matches somewhere exactly when some position starts
a match. -/
def number_search : List Char → Bool
  | [] => false
  | c :: cs => (matchNumberAt (c :: cs)).isSome || number_search cs

/-- The agreement word list of `naive_label`. -/
def AG_WORDS : List String := ["賛成", "同意", "了解", "たしかに", "わかる", "いいね"]

/-- The emotion word list of `naive_label`. -/
def EM_WORDS : List String := ["嬉しい", "悲しい", "怒", "楽しい", "最高", "最悪", "草", "笑"]

/-- Function `naive_label(text)` of `main.py`: the ordered rule cascade
URL-or-number, question, agreement, emotion, short text, fallback. -/
def naive_label (text : String) : String :=
  let t := text.toList
  if url_search t || number_search t then "S"
  else if containsSub ("？".toList) t || containsSub ("?".toList) t
      || endsWith ("か".toList) (pyStrip t) then "Q"
  else if AG_WORDS.any (fun w => containsSub w.toList t) then "AG"
  else if EM_WORDS.any (fun w => containsSub w.toList t) then "EM"
  else if 0 < t.length ∧ t.length < 20 then "CH"
  else "TP"

/-- The `odds = [n for n in nums if n % 2 == 1]` filter of
`select_odd_even_odd`. Python `n % 2` with modulus `2` and Lean `Int` `%`
agree on every integer (both give `0` or `1`), so the parity filter
carries over directly. -/
def oddsOf (nums : List Int) : List Int := nums.filter (fun n => n % 2 = 1)

/-- The `evens = [n for n in nums if n % 2 == 0]` filter of
`select_odd_even_odd`. -/
def evensOf (nums : List Int) : List Int := nums.filter (fun n => n % 2 = 0)

/-- Function `select_odd_even_odd(nums)` of `profile_image_utils.py`: the four
branches in source order (`odds[0]`, `evens[0]`, `odds[1]` are `getD` with
default `0`; every branch that reads them guarantees the index is in
range). -/
def select_odd_even_odd (nums : List Int) : List Int :=
  if 2 ≤ (oddsOf nums).length ∧ 1 ≤ (evensOf nums).length then
    [(oddsOf nums).getD 0 0, (evensOf nums).getD 0 0, (oddsOf nums).getD 1 0]
  else if 1 ≤ (oddsOf nums).length ∧ 1 ≤ (evensOf nums).length then
    [(oddsOf nums).getD 0 0, (evensOf nums).getD 0 0]
  else if 2 ≤ (oddsOf nums).length then (oddsOf nums).take 2
  else nums.take 3

/-- The `\d+[.,]?\d*` body shape of a complete `number_re` token: one or
more digits, optionally followed by a separator and a (possibly empty)
digit run filling the rest of the token. -/
def numBodyToken (cs : List Char) : Bool :=
  (cs.takeWhile Char.isDigit).length ≠ 0 &&
    (match cs.drop (cs.takeWhile Char.isDigit).length with
     | [] => true
     | c :: rest2 => isSepChar c && rest2.all Char.isDigit)

/-- A complete token of `number_re = [-+]?\d+[.,]?\d*`: optional sign, then
the digit body, the separator (when present) followed by zero or more
digits. -/
def codeNumberToken (cs : List Char) : Bool :=
  match cs with
  | [] => false
  | c :: rest => if isSignChar c then numBodyToken rest else numBodyToken cs

/-- Number-token body as the specification words it: digits, then, when a
decimal separator is present, the separator followed by at least one digit. -/
def specNumBody (cs : List Char) : Bool :=
  (cs.takeWhile Char.isDigit).length ≠ 0 &&
    (match cs.drop (cs.takeWhile Char.isDigit).length with
     | [] => true
     | c :: rest2 => isSepChar c && rest2.length ≠ 0 && rest2.all Char.isDigit)

/-- Number token as the specification words it (for comparison with the
code's `number_re`): optional leading `+` or `-`, digits, and an optional
single `.` or `,` decimal separator followed by digits. -/
def specNumberToken (cs : List Char) : Bool :=
  match cs with
  | [] => false
  | c :: rest => if isSignChar c then specNumBody rest else specNumBody cs

/-- A complete token of `url_re = https?://\S+`: the scheme followed by a
nonempty all-non-whitespace run filling the rest of the token. -/
def urlToken (cs : List Char) : Bool :=
  (startsWith ("https://".toList) cs && (cs.drop 8).length ≠ 0
      && (cs.drop 8).all (fun c => !isSpaceChar c))
  || (startsWith ("http://".toList) cs && (cs.drop 7).length ≠ 0
      && (cs.drop 7).all (fun c => !isSpaceChar c))

/-- A reaction-style delta dict `{topic: n}` touching only the topic axis. -/
def deltaTopic (n : Int) : Delta :=
  fun a => match a with
  | AxisName.topic => some n
  | _ => none

section Helpers

/-- Per-axis reading of the `add_scores` dict comprehension. -/
theorem newVals_axis (cur : UserScore) (d : Delta) (a : AxisName) :
    (newVals cur d).axis a = max 0 (cur.axis a + d.get a) := by
  cases a <;> rfl

/-- The ladder loop always lands on a ladder element. -/
theorem csm_mem (m : Int) : current_scale_max m ∈ THRESHOLDS := by
  simp only [current_scale_max, THRESHOLDS, firstRung]
  split_ifs <;> simp

/-- The ladder loop never returns less than the first rung. -/
theorem ten_le_csm (m : Int) : 10 ≤ current_scale_max m := by
  simp only [current_scale_max, THRESHOLDS, firstRung]
  split_ifs <;> simp

/-- Below the saturation rung, the chosen rung dominates the input. -/
theorem le_csm (m : Int) (h : m ≤ 160) : m ≤ current_scale_max m := by
  simp only [current_scale_max, THRESHOLDS, firstRung]
  split_ifs <;> simp <;> omega

/-- The chosen rung is the least ladder element at or above the input. -/
theorem csm_min (m : Int) : ∀ th ∈ THRESHOLDS, m ≤ th → current_scale_max m ≤ th := by
  intro th hth hle
  simp only [THRESHOLDS, List.mem_cons, List.not_mem_nil, or_false] at hth
  simp only [current_scale_max, THRESHOLDS, firstRung]
  split_ifs <;> simp_all <;> omega

/-- Past every rung the loop falls through to `THRESHOLDS[-1]`. -/
theorem csm_sat (m : Int) (h : 160 < m) : current_scale_max m = 160 := by
  simp only [current_scale_max, THRESHOLDS, firstRung]
  split_ifs <;> first | rfl | omega

/-- A fold of `max` never drops below its accumulator. -/
theorem le_foldl_max (l : List Int) (acc : Int) : acc ≤ l.foldl max acc := by
  induction l generalizing acc with
  | nil => exact le_refl acc
  | cons x t ih => exact le_trans (le_max_left acc x) (ih (max acc x))

/-- A fold of `max` dominates every list element. -/
theorem mem_le_foldl_max (l : List Int) (acc x : Int) (h : x ∈ l) : x ≤ l.foldl max acc := by
  induction l generalizing acc with
  | nil => cases h
  | cons y t ih =>
      rcases List.mem_cons.1 h with rfl | h'
      · exact le_trans (le_max_right acc x) (le_foldl_max t (max acc x))
      · exact ih (max acc y) h'

/-- A fold of `max` stays below any common upper bound. -/
theorem foldl_max_le (b : Int) (l : List Int) (acc : Int) (hacc : acc ≤ b)
    (h : ∀ x ∈ l, x ≤ b) : l.foldl max acc ≤ b := by
  induction l generalizing acc with
  | nil => exact hacc
  | cons y t ih =>
      exact ih (max acc y) (max_le hacc (h y (List.mem_cons_self y t)))
        (fun x hx => h x (List.mem_cons_of_mem y hx))

/-- Python `max` dominates every list element. -/
theorem le_listMax (l : List Int) (x : Int) (h : x ∈ l) : x ≤ listMax l :=
  mem_le_foldl_max l (l.headD 0) x h

/-- Python `max` of a list stays below any bound that dominates the head
default and every element. -/
theorem listMax_le (l : List Int) (b : Int) (h0 : l.headD 0 ≤ b)
    (h : ∀ x ∈ l, x ≤ b) : listMax l ≤ b :=
  foldl_max_le b l (l.headD 0) h0 h

/-- A decimal-separator character is not a digit. -/
theorem sep_not_digit (c : Char) (h : isSepChar c = true) : c.isDigit = false := by
  rcases (by simpa [isSepChar] using h : c = '.' ∨ c = ',') with rfl | rfl <;> decide

/-- A digit is not a sign character. -/
theorem digit_not_sign (c : Char) (h : c.isDigit = true) : isSignChar c = false := by
  by_contra hne
  rw [Bool.not_eq_false] at hne
  rcases (by simpa [isSignChar] using hne : c = '+' ∨ c = '-') with rfl | rfl <;> simp at h

/-- A `takeWhile` stops exactly at the first failing element after an
all-satisfying block. -/
theorem takeWhile_append_stop (p : Char → Bool) (l₁ l₂ : List Char) (c : Char)
    (h1 : ∀ x ∈ l₁, p x = true) (hc : p c = false) :
    (l₁ ++ c :: l₂).takeWhile p = l₁ := by
  induction l₁ with
  | nil => simp [List.takeWhile_cons, hc]
  | cons a t ih =>
      have ha : p a = true := h1 a (List.mem_cons_self a t)
      simp [List.takeWhile_cons, ha,
        ih (fun x hx => h1 x (List.mem_cons_of_mem a hx))]

/-- A nonempty all-digit run is a complete number-token body. -/
theorem numBodyToken_digits (d1 : List Char) (hne : d1.length ≠ 0)
    (hall : ∀ x ∈ d1, x.isDigit = true) : numBodyToken d1 = true := by
  have ht : d1.takeWhile Char.isDigit = d1 := List.takeWhile_eq_self_iff.2 hall
  simp only [numBodyToken, ht, List.drop_length]
  simp [hne]

/-- Digits, a separator, then digits form a complete number-token body. -/
theorem numBodyToken_sep (d1 d2 : List Char) (c : Char) (h1 : d1.length ≠ 0)
    (hd1 : ∀ x ∈ d1, x.isDigit = true) (hc : isSepChar c = true)
    (hd2 : ∀ x ∈ d2, x.isDigit = true) :
    numBodyToken (d1 ++ c :: d2) = true := by
  have ht : (d1 ++ c :: d2).takeWhile Char.isDigit = d1 :=
    takeWhile_append_stop _ _ _ _ hd1 (sep_not_digit c hc)
  simp only [numBodyToken, ht, List.drop_left]
  simp [h1, hc, List.all_eq_true]
  exact hd2

/-- What the greedy `\d+[.,]?\d*` matcher emits is a complete body. -/
theorem matchDigitsTail_token (cs m : List Char) (h : matchDigitsTail cs = some m) :
    numBodyToken m = true := by
  rw [matchDigitsTail] at h
  by_cases h0 : (cs.takeWhile Char.isDigit).length = 0
  · rw [if_pos h0] at h
    exact absurd h (by simp)
  · rw [if_neg h0] at h
    have hall : ∀ x ∈ cs.takeWhile Char.isDigit, x.isDigit = true :=
      fun x hx => List.mem_takeWhile_imp hx
    cases hdrop : cs.drop (cs.takeWhile Char.isDigit).length with
    | nil =>
        rw [hdrop] at h
        cases h
        exact numBodyToken_digits _ h0 hall
    | cons c rest2 =>
        rw [hdrop] at h
        dsimp only at h
        by_cases hsep : isSepChar c = true
        · rw [if_pos hsep] at h
          cases h
          exact numBodyToken_sep _ _ _ h0 hall hsep
            (fun x hx => List.mem_takeWhile_imp hx)
        · rw [if_neg hsep] at h
          cases h
          exact numBodyToken_digits _ h0 hall

/-- A token with a valid body starts with a digit. -/
theorem numBodyToken_head (m : List Char) (h : numBodyToken m = true) :
    ∃ c0 t, m = c0 :: t ∧ c0.isDigit = true := by
  cases m with
  | nil => simp [numBodyToken] at h
  | cons c0 t =>
      by_cases hd : c0.isDigit = true
      · exact ⟨c0, t, rfl, hd⟩
      · rw [numBodyToken, List.takeWhile_cons, if_neg hd] at h
        simp at h

/-- What the `number_re` matcher emits is a complete `number_re` token. -/
theorem matchNumberAt_token (cs m : List Char) (h : matchNumberAt cs = some m) :
    codeNumberToken m = true := by
  cases cs with
  | nil => exact absurd h (by simp [matchNumberAt])
  | cons c rest =>
      rw [matchNumberAt] at h
      by_cases hsign : isSignChar c = true
      · rw [if_pos hsign] at h
        cases hm : matchDigitsTail rest with
        | none => rw [hm] at h; exact absurd h (by simp)
        | some m0 =>
            rw [hm, Option.map_some'] at h
            cases h
            rw [codeNumberToken, if_pos hsign]
            exact matchDigitsTail_token rest m0 hm
      · rw [if_neg hsign] at h
        have hbody := matchDigitsTail_token (c :: rest) m h
        obtain ⟨c0, t, rfl, hd⟩ := numBodyToken_head m hbody
        rw [codeNumberToken, if_neg (by simp [digit_not_sign c0 hd])]
        exact hbody

/-- What the `url_re` matcher emits is a complete `url_re` token. -/
theorem matchUrlAt_token (cs m : List Char) (h : matchUrlAt cs = some m) :
    urlToken m = true := by
  rw [matchUrlAt] at h
  by_cases h1 : startsWith ("https://".toList) cs = true
  · rw [if_pos h1] at h
    by_cases h2 : ((cs.drop 8).takeWhile (fun c => !isSpaceChar c)).length = 0
    · rw [if_pos h2] at h; exact absurd h (by simp)
    · rw [if_neg h2] at h
      cases h
      have e1 : startsWith ("https://".toList)
          ("https://".toList ++ (cs.drop 8).takeWhile (fun c => !isSpaceChar c)) = true := rfl
      have e2 : ("https://".toList ++
          (cs.drop 8).takeWhile (fun c => !isSpaceChar c)).drop 8 =
          (cs.drop 8).takeWhile (fun c => !isSpaceChar c) := rfl
      rw [urlToken]
      simp only [Bool.or_eq_true, Bool.and_eq_true]
      refine Or.inl ⟨⟨e1, by rw [e2]; simpa using h2⟩, ?_⟩
      rw [e2]
      refine List.all_eq_true.2 (fun x hx => ?_)
      simpa using List.mem_takeWhile_imp hx
  · rw [if_neg h1] at h
    by_cases h1' : startsWith ("http://".toList) cs = true
    · rw [if_pos h1'] at h
      by_cases h2 : ((cs.drop 7).takeWhile (fun c => !isSpaceChar c)).length = 0
      · rw [if_pos h2] at h; exact absurd h (by simp)
      · rw [if_neg h2] at h
        cases h
        have e1 : startsWith ("http://".toList)
            ("http://".toList ++ (cs.drop 7).takeWhile (fun c => !isSpaceChar c)) = true := rfl
        have e2 : ("http://".toList ++
            (cs.drop 7).takeWhile (fun c => !isSpaceChar c)).drop 7 =
            (cs.drop 7).takeWhile (fun c => !isSpaceChar c) := rfl
        rw [urlToken]
        simp only [Bool.or_eq_true, Bool.and_eq_true]
        refine Or.inr ⟨⟨e1, by rw [e2]; simpa using h2⟩, ?_⟩
        rw [e2]
        refine List.all_eq_true.2 (fun x hx => ?_)
        simpa using List.mem_takeWhile_imp hx
    · rw [if_neg h1'] at h
      exact absurd h (by simp)

/-- Every token the `findall` scan emits is a token its matcher emitted. -/
theorem findallGo_token (matchAt : List Char → Option (List Char))
    (P : List Char → Prop) (hP : ∀ cs m, matchAt cs = some m → P m) :
    ∀ (fuel : Nat) (cs : List Char), ∀ m ∈ findallGo matchAt fuel cs, P m := by
  intro fuel
  induction fuel with
  | zero => intro cs m hm; simp [findallGo] at hm
  | succ n ih =>
      intro cs m hm
      cases cs with
      | nil => simp [findallGo] at hm
      | cons c t =>
          cases hmt : matchAt (c :: t) with
          | some m0 =>
              simp only [findallGo, hmt] at hm
              rcases List.mem_cons.1 hm with rfl | hm'
              · exact hP _ _ hmt
              · exact ih _ _ hm'
          | none =>
              simp only [findallGo, hmt] at hm
              exact ih _ _ hm

end Helpers

/-- Claim C4: for every non-negative integer `m`, `current_scale_max m` is
the first ladder element `≥ m` — it lies on the ladder, dominates `m`
whenever `m` does not exceed the last rung, and is the least rung at or
above `m` — and saturates to the last rung `160` when `m` exceeds every
rung; in particular `scale 0 = 10`, `scale 10 = 10`, `scale 11 = 20` and
`scale 1000 = 160`. -/
theorem current_scale_max_spec (m : Int) (hm : 0 ≤ m) :
    current_scale_max m ∈ THRESHOLDS ∧
    (m ≤ 160 → m ≤ current_scale_max m) ∧
    (∀ th ∈ THRESHOLDS, m ≤ th → current_scale_max m ≤ th) ∧
    (160 < m → current_scale_max m = 160) ∧
    current_scale_max 0 = 10 ∧ current_scale_max 10 = 10 ∧
    current_scale_max 11 = 20 ∧ current_scale_max 1000 = 160 :=
  ⟨csm_mem m, le_csm m, csm_min m, csm_sat m, rfl, rfl, rfl, rfl⟩

/-- Witness for C4 at `m = 11`: the chosen rung is `20`, which is a ladder
element at or above `11`. -/
theorem current_scale_max_spec_witness :
    current_scale_max 11 ∈ THRESHOLDS ∧ (11 : Int) ≤ current_scale_max 11 ∧
    current_scale_max 11 = 20 :=
  ⟨(current_scale_max_spec 11 (by decide)).1,
   (current_scale_max_spec 11 (by decide)).2.1 (by decide),
   (current_scale_max_spec 11 (by decide)).2.2.2.2.2.2.1⟩

/-- Claim C9: reading the scores of a user with no stored row returns the
all-zero record, raises nothing, and leaves the store exactly as it was —
no row is created for that user. -/
theorem get_scores_missing_spec (st : Store) (uid : Int) (h : st uid = none) :
    (get_scores st uid).1 = zeroScore ∧ (get_scores st uid).2 = st := by
  constructor
  · simp [get_scores, h]
  · rfl

/-- Witness for C9 on the empty store at user `42`. -/
theorem get_scores_missing_spec_witness :
    (get_scores (fun _ => none) 42).1 = zeroScore ∧
    (get_scores (fun _ => none) 42).2 = (fun _ => none : Store) :=
  get_scores_missing_spec (fun _ => none) 42 rfl

/-- Claim C3: a single `add_scores` call sets every axis to
`max 0 (current + delta)` independently, treats an axis absent from the
delta dict as a zero delta (keeping that axis at its floored current
value), and the record it returns is exactly the one the store then holds
for that user. -/
theorem add_scores_single_spec (st : Store) (uid : Int) (d : Delta) :
    (∀ a, (add_scores st uid d).1.axis a =
        max 0 ((get_scores st uid).1.axis a + d.get a)) ∧
    (∀ a, d a = none → (add_scores st uid d).1.axis a =
        max 0 ((get_scores st uid).1.axis a)) ∧
    (get_scores (add_scores st uid d).2 uid).1 = (add_scores st uid d).1 := by
  refine ⟨fun a => newVals_axis _ d a, fun a ha => ?_, ?_⟩
  · have h := newVals_axis (get_scores st uid).1 d a
    simp only [Delta.get, ha, Option.getD_none, add_zero] at h
    exact h
  · simp [get_scores, add_scores]

/-- Witness for C3 on the empty store at user `1` with a delta touching
only the topic axis: the untouched question axis keeps its floored current
value. -/
theorem add_scores_single_spec_witness :
    (add_scores (fun _ => none) 1 (deltaTopic 3)).1.axis AxisName.question =
      max 0 ((get_scores (fun _ => none) 1).1.axis AxisName.question) :=
  (add_scores_single_spec (fun _ => none) 1 (deltaTopic 3)).2.1 AxisName.question rfl

/-- Claim C2: every `add_scores` result has all five axes `≥ 0` (so after
each individual application of a delta sequence every stored axis value is
`≥ 0`), and the final value of each axis equals the fold of the deltas in
order with the step `v ↦ max 0 (v + d)` starting from the initial value —
the floor is applied at each step, not only at the end. -/
theorem add_scores_fold_spec :
    (∀ (st : Store) (uid : Int) (d : Delta) (a : AxisName),
      0 ≤ (add_scores st uid d).1.axis a) ∧
    (∀ (st : Store) (uid : Int) (ds : List Delta) (a : AxisName), ds ≠ [] →
      0 ≤ (get_scores (add_scores_list st uid ds) uid).1.axis a) ∧
    (∀ (st : Store) (uid : Int) (ds : List Delta) (a : AxisName),
      (get_scores (add_scores_list st uid ds) uid).1.axis a =
        ds.foldl (fun v dd => max 0 (v + dd.get a)) ((get_scores st uid).1.axis a)) := by
  have hstep : ∀ (st : Store) (uid : Int) (d : Delta),
      (get_scores (add_scores st uid d).2 uid).1 = (add_scores st uid d).1 := by
    intro st uid d
    simp [get_scores, add_scores]
  have hone : ∀ (st : Store) (uid : Int) (d : Delta) (a : AxisName),
      (add_scores st uid d).1.axis a =
        max 0 ((get_scores st uid).1.axis a + d.get a) :=
    fun st uid d a => newVals_axis _ d a
  have hfold : ∀ (st : Store) (uid : Int) (ds : List Delta) (a : AxisName),
      (get_scores (add_scores_list st uid ds) uid).1.axis a =
        ds.foldl (fun v dd => max 0 (v + dd.get a)) ((get_scores st uid).1.axis a) := by
    intro st uid ds a
    induction ds generalizing st with
    | nil => rfl
    | cons d t ih =>
        have h1 : add_scores_list st uid (d :: t) =
            add_scores_list (add_scores st uid d).2 uid t := rfl
        rw [h1, ih, List.foldl_cons, hstep, hone]
  refine ⟨fun st uid d a => ?_, fun st uid ds a hds => ?_, hfold⟩
  · rw [hone]; exact le_max_left 0 _
  · obtain ⟨t, d, rfl⟩ := ds.eq_nil_or_concat.resolve_left hds
    have h1 : add_scores_list st uid (t.concat d) =
        (add_scores (add_scores_list st uid t) uid d).2 := by
      simp [add_scores_list, List.concat_eq_append, List.foldl_append]
    rw [h1, hstep, hone]
    exact le_max_left 0 _

/-- Witness for C2: reaction deltas `+1, +1, -5` on a fresh user's topic
axis end at `0` (not `-3`), the stored value is non-negative, and a later
`+2` adds onto the floored `0`, ending at `2`. -/
theorem add_scores_fold_spec_witness :
    (get_scores (add_scores_list (fun _ => none) 7
        [deltaTopic 1, deltaTopic 1, deltaTopic (-5)]) 7).1.axis AxisName.topic = 0 ∧
    0 ≤ (get_scores (add_scores_list (fun _ => none) 7
        [deltaTopic 1, deltaTopic 1, deltaTopic (-5)]) 7).1.axis AxisName.topic ∧
    (get_scores (add_scores_list (fun _ => none) 7
        [deltaTopic 1, deltaTopic 1, deltaTopic (-5), deltaTopic 2]) 7).1.axis
        AxisName.topic = 2 := by
  refine ⟨?_, ?_, ?_⟩
  · rw [add_scores_fold_spec.2.2 (fun _ => none) 7
      [deltaTopic 1, deltaTopic 1, deltaTopic (-5)] AxisName.topic]
    decide
  · exact add_scores_fold_spec.2.1 (fun _ => none) 7
      [deltaTopic 1, deltaTopic 1, deltaTopic (-5)] AxisName.topic (by simp)
  · rw [add_scores_fold_spec.2.2 (fun _ => none) 7
      [deltaTopic 1, deltaTopic 1, deltaTopic (-5), deltaTopic 2] AxisName.topic]
    decide

/-- Claim C10: the normalization divisor of `make_radar` is always a
ladder rung, hence `≥ 10 > 0`, so no division by zero can occur; on the
all-zero record the maximum is replaced by `1` before scale selection,
giving scale `10` and all normalized values `0`. -/
theorem radar_divisor_safe (s : UserScore) :
    radarScale s ∈ THRESHOLDS ∧ 10 ≤ radarScale s ∧
    (s = zeroScore →
      radarMaxV s = 1 ∧ radarScale s = 10 ∧ make_radar_norm s = [0, 0, 0, 0, 0]) := by
  refine ⟨csm_mem _, ten_le_csm _, ?_⟩
  rintro rfl
  refine ⟨rfl, rfl, ?_⟩
  simp [make_radar_norm, radarValues, AXES, UserScore.axis, zeroScore]

/-- Witness for C10 at the all-zero record. -/
theorem radar_divisor_safe_witness :
    radarScale zeroScore ∈ THRESHOLDS ∧ 10 ≤ radarScale zeroScore ∧
    radarScale zeroScore = 10 ∧ make_radar_norm zeroScore = [0, 0, 0, 0, 0] :=
  ⟨(radar_divisor_safe zeroScore).1, (radar_divisor_safe zeroScore).2.1,
   ((radar_divisor_safe zeroScore).2.2 rfl).2.1,
   ((radar_divisor_safe zeroScore).2.2 rfl).2.2⟩

/-- Counterexample to C1 as stated: on the record `⟨161, 0, 0, 0, 0⟩` of
five non-negative axis values, the topic axis exceeds the largest ladder
rung, the chosen scale saturates at `160`, and the normalized topic value
`161/160` sits in `make_radar_norm` yet exceeds `1`. -/
theorem make_radar_norm_gt_one_at_161 :
    (161 : ℚ) / 160 ∈ make_radar_norm ⟨161, 0, 0, 0, 0⟩ ∧ ¬ ((161 : ℚ) / 160 ≤ 1) := by
  constructor
  · have hs : radarScale ⟨161, 0, 0, 0, 0⟩ = 160 := by decide
    simp [make_radar_norm, radarValues, AXES, UserScore.axis, hs]
  · norm_num

/-- Claim C1 (amended): when every axis value is non-negative and none
exceeds the largest ladder rung `160`, the scale chosen by `make_radar`
dominates every axis value and every normalized value is at most `1`;
beyond `160` the ladder saturates and the normalized maximum exceeds `1`. -/
theorem make_radar_norm_le_one (s : UserScore)
    (h0 : ∀ a, 0 ≤ s.axis a) (h160 : ∀ a, s.axis a ≤ 160) :
    ∀ q ∈ make_radar_norm s, q ≤ 1 := by
  intro q hq
  rw [make_radar_norm, List.mem_map] at hq
  obtain ⟨v, hmem, rfl⟩ := hq
  have hscale : v ≤ radarScale s := by
    rw [radarScale, radarMaxV]
    split_ifs with hany
    · have h1 : v ≤ listMax (radarValues s) := le_listMax _ v hmem
      have h2 : listMax (radarValues s) ≤ 160 := by
        apply listMax_le
        · exact le_trans (le_of_eq (rfl : (radarValues s).headD 0 = s.topic))
            (h160 AxisName.topic)
        · intro x hx
          rw [radarValues, List.mem_map] at hx
          obtain ⟨a, -, rfl⟩ := hx
          exact h160 a
      exact le_trans h1 (le_csm _ h2)
    · simp only [List.any_eq_true, decide_eq_true_eq, not_exists, not_and, not_not] at hany
      rw [hany v hmem]
      exact le_trans (by norm_num) (ten_le_csm 1)
  have hpos : (0 : ℚ) < ((radarScale s : Int) : ℚ) := by
    have h10 : (10 : Int) ≤ radarScale s := ten_le_csm (radarMaxV s)
    exact_mod_cast lt_of_lt_of_le (by norm_num) h10
  rw [div_le_one hpos]
  exact_mod_cast hscale

/-- Witness for the amended C1 at the boundary record `⟨160, 0, 0, 0, 0⟩`:
the normalized maximum is exactly `1` and the invariant holds there. -/
theorem make_radar_norm_le_one_witness :
    (1 : ℚ) ∈ make_radar_norm ⟨160, 0, 0, 0, 0⟩ ∧ (1 : ℚ) ≤ 1 := by
  have hs : radarScale ⟨160, 0, 0, 0, 0⟩ = 160 := by decide
  have hmem : (1 : ℚ) ∈ make_radar_norm ⟨160, 0, 0, 0, 0⟩ := by
    simp [make_radar_norm, radarValues, AXES, UserScore.axis, hs]
  exact ⟨hmem, make_radar_norm_le_one ⟨160, 0, 0, 0, 0⟩
    (by intro a; cases a <;> norm_num [UserScore.axis])
    (by intro a; cases a <;> norm_num [UserScore.axis]) 1 hmem⟩

/-- A list of length at least two starts with its first two entries. -/
theorem take_two_eq (l : List Int) (h : 2 ≤ l.length) :
    l.take 2 = [l.getD 0 0, l.getD 1 0] := by
  rcases l with _ | ⟨a, _ | ⟨b, t⟩⟩
  · simp at h
  · simp at h
  · rfl

/-- Claim C6: `select_odd_even_odd` follows the branch order — with at
least two odds and one even it returns first-odd, first-even, second-odd;
else with one odd and one even it returns first-odd, first-even; else with
two odds it returns the first two odds; otherwise the first up-to-three
inputs unfiltered — where first means first occurrence in input order, the
output length never exceeds `3`, the empty input gives the empty output,
and `[4, 1, 6, 3]` yields `[1, 4, 3]`. -/
theorem select_odd_even_odd_spec :
    (∀ l : List Int, (select_odd_even_odd l).length ≤ 3) ∧
    select_odd_even_odd [] = [] ∧
    select_odd_even_odd [4, 1, 6, 3] = [1, 4, 3] ∧
    (∀ l : List Int,
      (2 ≤ (oddsOf l).length → 1 ≤ (evensOf l).length →
        select_odd_even_odd l =
          [(oddsOf l).getD 0 0, (evensOf l).getD 0 0, (oddsOf l).getD 1 0]) ∧
      (¬ (2 ≤ (oddsOf l).length ∧ 1 ≤ (evensOf l).length) →
        1 ≤ (oddsOf l).length → 1 ≤ (evensOf l).length →
        select_odd_even_odd l = [(oddsOf l).getD 0 0, (evensOf l).getD 0 0]) ∧
      (¬ (2 ≤ (oddsOf l).length ∧ 1 ≤ (evensOf l).length) →
        ¬ (1 ≤ (oddsOf l).length ∧ 1 ≤ (evensOf l).length) →
        2 ≤ (oddsOf l).length →
        select_odd_even_odd l = [(oddsOf l).getD 0 0, (oddsOf l).getD 1 0]) ∧
      (¬ (2 ≤ (oddsOf l).length ∧ 1 ≤ (evensOf l).length) →
        ¬ (1 ≤ (oddsOf l).length ∧ 1 ≤ (evensOf l).length) →
        ¬ 2 ≤ (oddsOf l).length →
        select_odd_even_odd l = l.take 3)) := by
  refine ⟨?_, by decide, by decide, ?_⟩
  · intro l
    rw [select_odd_even_odd]
    split_ifs <;> simp [List.length_take]
  · intro l
    refine ⟨fun h1 h2 => ?_, fun hn1 h1 h2 => ?_, fun hn1 hn2 h1 => ?_, fun hn1 hn2 hn3 => ?_⟩
    · rw [select_odd_even_odd, if_pos ⟨h1, h2⟩]
    · rw [select_odd_even_odd, if_neg hn1, if_pos ⟨h1, h2⟩]
    · rw [select_odd_even_odd, if_neg hn1, if_neg hn2, if_pos h1]
      exact take_two_eq _ h1
    · rw [select_odd_even_odd, if_neg hn1, if_neg hn2, if_neg hn3]

/-- Witness for C6 at `[4, 1, 6, 3]` through the first branch: first odd
`1`, first even `4`, second odd `3`. -/
theorem select_odd_even_odd_spec_witness :
    select_odd_even_odd [4, 1, 6, 3] = [1, 4, 3] := by
  have h := (select_odd_even_odd_spec.2.2.2 [4, 1, 6, 3]).1 (by decide) (by decide)
  rw [h]
  decide

/-- Claim C5: `naive_label` always returns one of the six labels
`S, Q, AG, EM, CH, TP`, and the cascade order gives the URL-or-number rule
priority over all later rules: any text where the URL pattern or the
number pattern matches is labeled `S` — question mark or not. -/
theorem naive_label_spec :
    (∀ t : String, naive_label t ∈ (["S", "Q", "AG", "EM", "CH", "TP"] : List String)) ∧
    (∀ t : String, (url_search t.toList = true ∨ number_search t.toList = true) →
      naive_label t = "S") := by
  constructor
  · intro t
    rw [naive_label]
    split_ifs <;> simp
  · intro t ht
    have hb : (url_search t.toList || number_search t.toList) = true := by
      rcases ht with h | h
      · simp only [h, Bool.true_or]
      · simp only [h, Bool.or_true]
    rw [naive_label]
    simp only [hb, if_true]

/-- Witness for C5 at a text containing both a URL and a question mark:
the label is `S`, not `Q`. -/
theorem naive_label_spec_witness :
    naive_label "https://a ?" = "S" ∧
    containsSub ("?".toList) ("https://a ?".toList) = true ∧
    naive_label "" ∈ (["S", "Q", "AG", "EM", "CH", "TP"] : List String) :=
  ⟨naive_label_spec.2 "https://a ?" (Or.inl (by decide)), by decide, naive_label_spec.1 ""⟩

/-- Counterexample to C7 as stated: on the input `"1."` the code returns
the number token `"1."`, whose decimal separator is followed by no digit
at all — it does not match the claimed pattern of a separator followed by
digits. -/
theorem extract_entities_sep_counterexample :
    (extract_entities "1.").numbers = ["1."] ∧ specNumberToken ("1.".toList) = false := by
  constructor <;> decide

/-- Claim C7 (amended): every string in the `numbers` list of
`extract_entities` is a complete token of `number_re` — optionally signed
digits with an optional single `.` or `,` separator followed by zero or
more digits — every string in the `urls` list is a complete token of
`url_re` — an HTTP or HTTPS scheme followed by a nonempty non-whitespace
run — the empty text yields two empty lists, and the spec's example text
splits into its URL and its number. -/
theorem extract_entities_amended :
    (∀ t : String, ∀ s ∈ (extract_entities t).numbers, codeNumberToken s.toList = true) ∧
    (∀ t : String, ∀ u ∈ (extract_entities t).urls, urlToken u.toList = true) ∧
    extract_entities "" = ⟨[], []⟩ ∧
    extract_entities "これ見て https://example.com 123" =
      ⟨["https://example.com"], ["123"]⟩ := by
  refine ⟨?_, ?_, by decide, by decide⟩
  · intro t s hs
    simp only [extract_entities, List.mem_map] at hs
    obtain ⟨m, hm, rfl⟩ := hs
    exact findallGo_token matchNumberAt (fun l => codeNumberToken l = true)
      matchNumberAt_token _ _ m hm
  · intro t u hu
    simp only [extract_entities, List.mem_map] at hu
    obtain ⟨m, hm, rfl⟩ := hu
    exact findallGo_token matchUrlAt (fun l => urlToken l = true)
      matchUrlAt_token _ _ m hm

/-- Witness for the amended C7 on the spec's example text: the extracted
number `"123"` and URL `"https://example.com"` are complete tokens. -/
theorem extract_entities_amended_witness :
    codeNumberToken ("123".toList) = true ∧
    urlToken ("https://example.com".toList) = true :=
  ⟨extract_entities_amended.1 "これ見て https://example.com 123" "123" (by decide),
   extract_entities_amended.2.1 "これ見て https://example.com 123" "https://example.com"
     (by decide)⟩

end DiscordBot
